import Mathlib

/-!
Verification development for the mule repository (Go).

The core state-bearing operations of the program are shallowly embedded as
pure Lean functions: Go maps become insertion-ordered association lists with
at most one binding per key, handler functions become state transformers that
also return the HTTP status code they write, and external effects (git status,
config persistence, the remote provider, the agent/workflow refresh) become
explicit oracle parameters recording whether the external call succeeded.
File paths are taken as already canonical, so `filepath.Abs` is the identity.
-/

namespace Mule

/-! Association-list model of a Go map (`map[string]V`). -/

/-- Lookup in a Go map: the value bound to `k`, if any. -/
def lookupKey {β : Type _} : List (String × β) → String → Option β
  | [], _ => none
  | (k2, v) :: t, k => if k2 = k then some v else lookupKey t k

/-- Go `delete(m, k)`: drop any binding of `k`. -/
def eraseKey {β : Type _} (m : List (String × β)) (k : String) : List (String × β) :=
  m.filter (fun p => p.1 != k)

/-- Go `m[k] = v`: replace an existing binding in place, or append a new one. -/
def insertKey {β : Type _} : List (String × β) → String → β → List (String × β)
  | [], k, v => [(k, v)]
  | (k2, w) :: t, k, v => if k2 = k then (k, v) :: t else (k2, w) :: insertKey t k v

/-- Keys of a map, in binding order. -/
def keysOf {β : Type _} (m : List (String × β)) : List String := m.map Prod.fst

/-- The map holds at most one binding per key. -/
def UniqueKeys {β : Type _} (m : List (String × β)) : Prop := (keysOf m).Nodup

instance {β : Type _} (m : List (String × β)) : Decidable (UniqueKeys m) := by
  unfold UniqueKeys; infer_instance

/-! Schedule-expression parsing.

The program delegates parsing to the `robfig/cron` dependency
(`s.cron.AddFunc(schedule, …)`), whose source is not part of this
repository's files. The parser below is therefore modelled from the spec. -/

/-- Split a character list at every occurrence of `c`. -/
def splitOnChar (c : Char) : List Char → List (List Char)
  | [] => [[]]
  | a :: t =>
    if a = c then [] :: splitOnChar c t
    else
      match splitOnChar c t with
      | [] => [[a]]
      | h :: r => (a :: h) :: r

/-- Parse a non-empty all-digit character list as a natural number. -/
def parseNatChars (l : List Char) : Option Nat :=
  if !l.isEmpty && l.all Char.isDigit then
    some (l.foldl (fun acc c => acc * 10 + (c.toNat - 48)) 0)
  else none

/-- Modelled from the spec: a literal field value inside the domain `[lo, hi]`. -/
def literalOk (lo hi : Nat) (l : List Char) : Bool :=
  match parseNatChars l with
  | some n => decide (lo ≤ n) && decide (n ≤ hi)
  | none => false

/-- Modelled from the spec: a literal or an `a-b` range, values inside `[lo, hi]`. -/
def rangeOk (lo hi : Nat) (l : List Char) : Bool :=
  match splitOnChar '-' l with
  | [x] => literalOk lo hi x
  | [x, y] =>
    match parseNatChars x, parseNatChars y with
    | some a, some b => decide (lo ≤ a) && decide (b ≤ hi) && decide (a ≤ b)
    | _, _ => false
  | _ => false

/-- Modelled from the spec: the base of a step item, `*` or an `a-b` range. -/
def stepBaseOk (lo hi : Nat) (l : List Char) : Bool :=
  if l = ['*'] then true
  else
    match splitOnChar '-' l with
    | [x, y] =>
      match parseNatChars x, parseNatChars y with
      | some a, some b => decide (lo ≤ a) && decide (b ≤ hi) && decide (a ≤ b)
      | _, _ => false
    | _ => false

/-- Modelled from the spec: one comma-separated item of a field — a wildcard
`*`, a literal, an `a-b` range, or a `*/n` / `a-b/n` step with the step value
inside the field's domain (so `*/61` in the minutes field is rejected). -/
def itemOk (lo hi : Nat) (l : List Char) : Bool :=
  match splitOnChar '/' l with
  | [base] => decide (base = ['*']) || rangeOk lo hi base
  | [base, st] =>
    stepBaseOk lo hi base &&
      (match parseNatChars st with
       | some n => decide (1 ≤ n) && decide (n ≤ hi)
       | none => false)
  | _ => false

/-- Modelled from the spec: a whole field, a comma-separated set of items. -/
def fieldOk (lo hi : Nat) (l : List Char) : Bool :=
  (splitOnChar ',' l).all (itemOk lo hi)

/-- Modelled from the spec: the schedule-expression parser of the Schedule
Expression Engine (the `robfig/cron` dependency, not under the repository's
source files). Five whitespace-separated fields `minute hour day-of-month
month day-of-week` with domains 0–59, 0–23, 1–31, 1–12, 0–6, plus an optional
leading seconds field (0–59); returns `true` exactly when the expression is
well-formed. -/
def cronParse (s : String) : Bool :=
  match (splitOnChar ' ' s.data).filter (fun f => !f.isEmpty) with
  | [mi, h, dom, mon, dow] =>
    fieldOk 0 59 mi && fieldOk 0 23 h && fieldOk 1 31 dom &&
      fieldOk 1 12 mon && fieldOk 0 6 dow
  | [sec, mi, h, dom, mon, dow] =>
    fieldOk 0 59 sec && fieldOk 0 59 mi && fieldOk 0 23 h && fieldOk 1 31 dom &&
      fieldOk 1 12 mon && fieldOk 0 6 dow
  | _ => false

/-! The periodic scheduler (`pkg/scheduler`, `src/unnamed/part_001`). -/

/-- Error returned by a failed registration (the parse error of `cron.AddFunc`). -/
inductive SchedulerError
  | invalidExpression
deriving DecidableEq, Repr

/-- One registered task: its cron entry id, schedule string and action.
Actions are opaque zero-argument callables in Go; they are represented by an
arbitrary type `α`, observable only up to identity. -/
structure Task (α : Type _) where
  id : Nat
  schedule : String
  action : α
deriving DecidableEq, Repr

/-- Scheduler state: the cron runner's pending entry ids and its id counter,
plus the `tasks` map guarded by `s.mu`. -/
structure Scheduler (α : Type _) where
  cronEntries : List Nat
  nextId : Nat
  tasks : List (String × Task α)
deriving DecidableEq, Repr

/-- A scheduler with no tasks, as built by `NewScheduler`. -/
def NewScheduler (α : Type _) : Scheduler α :=
  { cronEntries := [], nextId := 0, tasks := [] }

/-- Embeds `Scheduler.RemoveTask`: if a task exists under `key`, remove its
cron entry (cancelling the pending fire) and delete it from the map;
otherwise do nothing. -/
def Scheduler.RemoveTask {α : Type _} (s : Scheduler α) (key : String) : Scheduler α :=
  match lookupKey s.tasks key with
  | some task =>
    { s with
      cronEntries := s.cronEntries.filter (fun i => i != task.id),
      tasks := eraseKey s.tasks key }
  | none => s

/-- Embeds `Scheduler.AddTask`: first remove any existing task under `key`
(the same statements as `RemoveTask`), then let `cron.AddFunc` parse the
schedule — on parse failure return the error, otherwise register a fresh cron
entry and store the task in the map. -/
def Scheduler.AddTask {α : Type _} (s : Scheduler α) (key schedule : String) (action : α) :
    Scheduler α × Option SchedulerError :=
  let s1 := s.RemoveTask key
  if cronParse schedule then
    ({ cronEntries := s1.cronEntries ++ [s1.nextId],
       nextId := s1.nextId + 1,
       tasks := insertKey s1.tasks key { id := s1.nextId, schedule := schedule, action := action } },
     none)
  else (s1, some SchedulerError.invalidExpression)

/-- Embeds `Scheduler.UpdateTask`: delegates to `AddTask`. -/
def Scheduler.UpdateTask {α : Type _} (s : Scheduler α) (key schedule : String) (action : α) :
    Scheduler α × Option SchedulerError :=
  s.AddTask key schedule action

/-- One registration-interface operation of the scheduler. -/
inductive SchedOp (α : Type _)
  | add (key schedule : String) (action : α)
  | update (key schedule : String) (action : α)
  | remove (key : String)

/-- State reached after one operation (ignoring the returned error). -/
def applyOp {α : Type _} (s : Scheduler α) : SchedOp α → Scheduler α
  | SchedOp.add k e a => (s.AddTask k e a).1
  | SchedOp.update k e a => (s.UpdateTask k e a).1
  | SchedOp.remove k => s.RemoveTask k

/-- State reached after a sequence of operations. -/
def applyOps {α : Type _} (s : Scheduler α) (ops : List (SchedOp α)) : Scheduler α :=
  ops.foldl applyOp s

/-! The resource registry (`state.State.Repositories`) and the repository
handlers (`src/unnamed/part_001`). -/

/-- Modelled from the spec: the Resource record (`pkg/repository` is not under
the repository's source files). Only the fields the handlers in scope read or
write are kept; the status and remote fields stand for the mutable sync state
and provider reference. -/
structure Repository where
  path : String
  schedule : String
  status : String
  remote : String
deriving DecidableEq, Repr

/-- Embeds `getRepository`: shared-lock lookup of a repository by its
canonical path (`filepath.Abs` is the identity on canonical paths); `none` is
the NotFound outcome. -/
def getRepository (repositories : List (String × Repository)) (path : String) :
    Option Repository :=
  lookupKey repositories path

/-- Embeds `updateRepo`: `repo.UpdateStatus()` is an external git call whose
outcome is the oracle `statusError`; on failure the function returns with the
registry untouched, otherwise it unconditionally re-inserts the repository
under its path. -/
def updateRepo (statusError : Bool) (repo : Repository)
    (repositories : List (String × Repository)) : List (String × Repository) :=
  if statusError then repositories
  else insertKey repositories repo.path repo

/-- The shared application state the handlers touch: the repository registry
and the scheduler (both behind `state.State.Mu`). -/
structure AppState (α : Type _) where
  repositories : List (String × Repository)
  scheduler : Scheduler α

/-- Embeds `HandleDeleteRepository`: requires a non-empty `path` query
parameter (else 400), looks the repository up (else 404), deletes it from the
registry and removes its scheduler task under the same key, then saves the
configuration — `saveOk` is the persistence oracle; a save failure yields 500
but the in-memory deletion stands. -/
def HandleDeleteRepository {α : Type _} (st : AppState α) (path : String) (saveOk : Bool) :
    AppState α × Nat :=
  if path = "" then (st, 400)
  else
    match getRepository st.repositories path with
    | none => (st, 404)
    | some repo =>
      let st1 : AppState α :=
        { repositories := eraseKey st.repositories repo.path,
          scheduler := st.scheduler.RemoveTask repo.path }
      if saveOk then (st1, 200) else (st1, 500)

/-! The settings handlers (`src/internal/handlers/settings.go`). Decoded
settings values are opaque, represented by a type parameter `σ`; the agent
refresh, workflow refresh and config save are external calls represented by
success oracles. -/

/-- Error cause reported by `handleSettingsChange`. -/
inductive SettingsError
  | updateAgents
  | updateWorkflows
  | saveConfig
deriving DecidableEq, Repr

set_option linter.unusedVariables false in
/-- Embeds `handleSettingsChange`: overwrite the in-memory settings first,
then refresh agents and workflows and save the config, returning the first
failure; the returned `σ` is the in-memory settings value after the call. -/
def handleSettingsChange {σ : Type _} (current newSettings : σ)
    (agentsOk workflowsOk saveOk : Bool) : σ × Option SettingsError :=
  let settings := newSettings
  if !agentsOk then (settings, some SettingsError.updateAgents)
  else if !workflowsOk then (settings, some SettingsError.updateWorkflows)
  else if !saveOk then (settings, some SettingsError.saveConfig)
  else (settings, none)

/-- Embeds `HandleUpdateSettings`: a body that fails to decode yields 400 with
the settings untouched; otherwise `handleSettingsChange` runs and an error
from it yields 500 (the mutated settings kept), success yields 200. -/
def HandleUpdateSettings {σ : Type _} (current : σ) (body : Option σ)
    (agentsOk workflowsOk saveOk : Bool) : σ × Nat :=
  match body with
  | none => (current, 400)
  | some s =>
    match handleSettingsChange current s agentsOk workflowsOk saveOk with
    | (s1, some _) => (s1, 500)
    | (s1, none) => (s1, 200)

/-! The local-provider comment handler (`src/internal/handlers/local.go`). -/

/-- Decoded body of an add-comment request. -/
structure CommentRequest where
  path : String
  resourceId : Int
  resourceType : String
  body : String
  diffHunk : String
deriving DecidableEq, Repr

/-- A call made to the repository's remote provider. -/
inductive RemoteCall
  | createIssueComment (path : String) (resourceId : Int)
  | createPRComment (path : String) (resourceId : Int)
deriving DecidableEq, Repr

/-- Embeds `HandleAddLocalComment`: decode (400 on failure), look the
repository up (404 on failure), then switch on `resourceType` — `"issue"`
calls `CreateIssueComment`, `"pr"` calls `CreatePRComment` (each 500 on a
provider error, via the `issueOk` / `prOk` oracles), and any other value falls
through the switch to the 201 response with no provider call. The result is
the status code written and the list of provider calls made. -/
def HandleAddLocalComment (repositories : List (String × Repository))
    (body : Option CommentRequest) (issueOk prOk : Bool) : Nat × List RemoteCall :=
  match body with
  | none => (400, [])
  | some req =>
    match getRepository repositories req.path with
    | none => (404, [])
    | some _ =>
      if req.resourceType = "issue" then
        if issueOk then (201, [RemoteCall.createIssueComment req.path req.resourceId])
        else (500, [RemoteCall.createIssueComment req.path req.resourceId])
      else if req.resourceType = "pr" then
        if prOk then (201, [RemoteCall.createPRComment req.path req.resourceId])
        else (500, [RemoteCall.createPRComment req.path req.resourceId])
      else (201, [])

/-! The log-viewer handler (`HandleLogs`, `src/unnamed/part_000`). The file
read and JSON decode are external; the pipeline below starts from the list of
successfully decoded `LogEntry` values, in file order. The fractional part of
the float timestamp is discarded by `time.Unix(int64(ts), 0)` in the source,
so timestamps are embedded as integers directly. -/

/-- One decoded log line (the fields the pipeline reads or writes). -/
structure LogEntry where
  level : String
  timeStamp : Int
  time : Int
  message : String
  content : String
  error : String
  id : String
deriving DecidableEq, Repr

/-- One conversation: entries grouped under a shared non-empty id. -/
structure Conversation where
  id : String
  startTime : Int
  messages : List LogEntry
  messageCount : Nat
  status : String
deriving DecidableEq, Repr

/-- Go `html.EscapeString` on one character. -/
def escapeChar (c : Char) : List Char :=
  if c = '&' then "&amp;".data
  else if c = Char.ofNat 39 then "&#39;".data
  else if c = '<' then "&lt;".data
  else if c = '>' then "&gt;".data
  else if c = Char.ofNat 34 then "&#34;".data
  else [c]

/-- Go `html.EscapeString`. -/
def htmlEscapeString (s : String) : String :=
  String.mk (s.data.map escapeChar).flatten

/-- Go `strings.EqualFold`, as case-insensitive comparison via lowering. -/
def equalFold (a b : String) : Bool :=
  a.toLower == b.toLower

/-- Whether `needle` is a leading segment of `hay`. -/
def charsStartWith : List Char → List Char → Bool
  | [], _ => true
  | _ :: _, [] => false
  | a :: as, b :: bs => a == b && charsStartWith as bs

/-- Whether `needle` occurs contiguously inside `hay`. -/
def charsContain (needle : List Char) : List Char → Bool
  | [] => charsStartWith needle []
  | c :: t => charsStartWith needle (c :: t) || charsContain needle t

/-- Go `strings.Contains`. -/
def containsSubstring (hay needle : String) : Bool :=
  charsContain needle.data hay.data

/-- Go `strconv.Atoi`: base-10 integer with optional sign, rejecting values
outside the signed 64-bit range. -/
def goAtoi (s : String) : Option Int :=
  let core : Option Int :=
    match s.data with
    | '+' :: rest => (parseNatChars rest).map Int.ofNat
    | '-' :: rest => (parseNatChars rest).map (fun n => -(Int.ofNat n))
    | l => (parseNatChars l).map Int.ofNat
  match core with
  | some n => if -(2 ^ 63) ≤ n ∧ n < 2 ^ 63 then some n else none
  | none => none

/-- Per-entry preparation in the read loop: set `Time` from the timestamp and
HTML-escape the message, content and error fields. -/
def prepareEntry (e : LogEntry) : LogEntry :=
  { e with
    time := e.timeStamp,
    message := htmlEscapeString e.message,
    content := htmlEscapeString e.content,
    error := htmlEscapeString e.error }

/-- The level and search filters applied to each prepared entry. -/
def keepEntry (levelFilter search : String) (e : LogEntry) : Bool :=
  (levelFilter == "" || equalFold e.level levelFilter) &&
    (search == "" || containsSubstring e.message.toLower search.toLower)

/-- Grouping step: an entry with an empty id is dropped; otherwise it is
appended to its conversation, or starts a new one keyed by its id. -/
def addEntryToConversations (m : List (String × Conversation)) (e : LogEntry) :
    List (String × Conversation) :=
  if e.id = "" then m
  else
    match lookupKey m e.id with
    | some conv =>
      insertKey m e.id
        { conv with messages := conv.messages ++ [e], messageCount := conv.messageCount + 1 }
    | none =>
      insertKey m e.id
        { id := e.id, startTime := e.time, messages := [e], messageCount := 1, status := "" }

/-- Per-conversation finishing step: sort messages chronologically and set the
status from the level of the last message, when there is one. -/
def finishConversation (c : Conversation) : Conversation :=
  let msgs := List.insertionSort (fun a b => a.time ≤ b.time) c.messages
  { c with
    messages := msgs,
    status := (msgs.getLast?.map LogEntry.level).getD c.status }

/-- The `sortedConversations` value of `HandleLogs`: prepare and filter the
entries, group them by conversation id, finish each conversation, and sort
conversations by start time, most recent first. -/
def sortedConversations (entries : List LogEntry) (search levelFilter : String) :
    List Conversation :=
  let kept := (entries.map prepareEntry).filter (keepEntry levelFilter search)
  let grouped := kept.foldl addEntryToConversations []
  let convs := grouped.map (fun p => finishConversation p.2)
  List.insertionSort (fun a b => b.startTime ≤ a.startTime) convs

/-- The `limit` query parameter: 10 when absent, the parsed value when
`strconv.Atoi` succeeds, 10 again when it fails. -/
def parseLimit (limitStr : String) : Int :=
  if limitStr ≠ "" then
    match goAtoi limitStr with
    | some n => n
    | none => 10
  else 10

/-- Embeds the response computation of `HandleLogs`: the conversation list
sent back, truncated to `limit` entries only when the limit is positive and
exceeded. -/
def HandleLogs (entries : List LogEntry) (search levelFilter limitStr : String) :
    List Conversation :=
  let convs := sortedConversations entries search levelFilter
  if 0 < parseLimit limitStr ∧ parseLimit limitStr < (convs.length : Int) then
    convs.take (parseLimit limitStr).toNat
  else convs

/-! Concrete sample states used to evaluate the theorems on closed inputs. -/

/-- A concrete registered task. -/
def sampleTask : Task Nat := { id := 0, schedule := "* * * * *", action := 7 }

/-- A concrete scheduler holding `sampleTask` under key `"k"`. -/
def sampleScheduler : Scheduler Nat :=
  { cronEntries := [0], nextId := 1, tasks := [("k", sampleTask)] }

/-- A concrete repository at a canonical path. -/
def sampleRepo : Repository :=
  { path := "/tmp/r", schedule := "* * * * *", status := "clean", remote := "local" }

/-- A concrete application state tracking `sampleRepo` with a scheduled task
under the same key. -/
def sampleAppState : AppState Nat :=
  { repositories := [("/tmp/r", sampleRepo)],
    scheduler :=
      { cronEntries := [3], nextId := 4,
        tasks := [("/tmp/r", { id := 3, schedule := "* * * * *", action := 1 })] } }

/-- A concrete decoded comment request with an unrecognized resource type. -/
def sampleCommentRequest : CommentRequest :=
  { path := "/tmp/r", resourceId := 5, resourceType := "note", body := "b", diffHunk := "" }

/-- A concrete decoded log entry. -/
def sampleEntry : LogEntry :=
  { level := "info", timeStamp := 100, time := 0, message := "m", content := "",
    error := "", id := "c1" }

/-! Shared lemmas about the association-list map operations. -/

theorem lookupKey_eraseKey_self {β : Type _} (m : List (String × β)) (k : String) :
    lookupKey (eraseKey m k) k = none := by
  induction m with
  | nil => rfl
  | cons p t ih =>
    simp only [eraseKey, List.filter_cons] at ih ⊢
    by_cases h : p.1 = k
    · simp [h, ih]
    · simp [h, lookupKey, ih]

theorem lookupKey_eraseKey_ne {β : Type _} (m : List (String × β)) (k k2 : String)
    (h : k2 ≠ k) : lookupKey (eraseKey m k) k2 = lookupKey m k2 := by
  induction m with
  | nil => rfl
  | cons p t ih =>
    simp only [eraseKey, List.filter_cons] at ih ⊢
    by_cases hp : p.1 = k
    · have hk : ¬(k = k2) := fun he => h he.symm
      simp [hp, lookupKey, hk, ih]
    · by_cases hq : p.1 = k2 <;> simp [hp, hq, lookupKey, ih, h]

theorem eraseKey_of_lookup_none {β : Type _} (m : List (String × β)) (k : String)
    (h : lookupKey m k = none) : eraseKey m k = m := by
  induction m with
  | nil => rfl
  | cons p t ih =>
    simp only [lookupKey] at h
    by_cases hp : p.1 = k
    · rw [if_pos hp] at h; exact absurd h (by simp)
    · rw [if_neg hp] at h
      simp only [eraseKey, List.filter_cons] at ih ⊢
      simp [hp, ih h]

theorem lookupKey_insertKey_self {β : Type _} (m : List (String × β)) (k : String) (v : β) :
    lookupKey (insertKey m k v) k = some v := by
  induction m with
  | nil => simp [insertKey, lookupKey]
  | cons p t ih =>
    by_cases h : p.1 = k
    · simp [insertKey, h, lookupKey]
    · simp [insertKey, h, lookupKey, ih]

theorem mem_of_lookupKey {β : Type _} (m : List (String × β)) (k : String) (v : β)
    (h : lookupKey m k = some v) : (k, v) ∈ m := by
  induction m with
  | nil => exact absurd h (by simp [lookupKey])
  | cons p t ih =>
    simp only [lookupKey] at h
    by_cases hp : p.1 = k
    · rw [if_pos hp] at h
      have : p = (k, v) := by
        cases p; cases h; cases hp; rfl
      rw [← this]; exact List.mem_cons_self p t
    · rw [if_neg hp] at h
      exact List.mem_cons_of_mem p (ih h)

theorem mem_insertKey {β : Type _} (m : List (String × β)) (k : String) (v : β)
    (p : String × β) (h : p ∈ insertKey m k v) : p = (k, v) ∨ p ∈ m := by
  induction m with
  | nil => simp [insertKey] at h; simp [h]
  | cons q t ih =>
    by_cases hq : q.1 = k
    · rw [insertKey, if_pos hq] at h
      rcases List.mem_cons.mp h with h1 | h1
      · exact Or.inl h1
      · exact Or.inr (List.mem_cons_of_mem q h1)
    · rw [insertKey, if_neg hq] at h
      rcases List.mem_cons.mp h with h1 | h1
      · exact Or.inr (h1 ▸ List.mem_cons_self q t)
      · rcases ih h1 with h2 | h2
        · exact Or.inl h2
        · exact Or.inr (List.mem_cons_of_mem q h2)

theorem mem_keysOf_insertKey {β : Type _} (m : List (String × β)) (k : String) (v : β)
    (s : String) (h : s ∈ keysOf (insertKey m k v)) : s ∈ keysOf m ∨ s = k := by
  rcases List.mem_map.mp h with ⟨p, hp, rfl⟩
  rcases mem_insertKey m k v p hp with h1 | h1
  · exact Or.inr (by rw [h1])
  · exact Or.inl (List.mem_map_of_mem Prod.fst h1)

theorem uniqueKeys_eraseKey {β : Type _} (m : List (String × β)) (k : String)
    (h : UniqueKeys m) : UniqueKeys (eraseKey m k) :=
  h.sublist ((List.filter_sublist m).map Prod.fst)

theorem uniqueKeys_insertKey {β : Type _} (m : List (String × β)) (k : String) (v : β)
    (h : UniqueKeys m) : UniqueKeys (insertKey m k v) := by
  induction m with
  | nil => simp [insertKey, UniqueKeys, keysOf]
  | cons p t ih =>
    simp only [UniqueKeys, keysOf, List.map_cons, List.nodup_cons] at h
    by_cases hp : p.1 = k
    · rw [insertKey, if_pos hp]
      simp only [UniqueKeys, keysOf, List.map_cons, List.nodup_cons]
      exact ⟨hp ▸ h.1, h.2⟩
    · rw [insertKey, if_neg hp]
      simp only [UniqueKeys, keysOf, List.map_cons, List.nodup_cons]
      refine ⟨fun hmem => ?_, ih h.2⟩
      rcases mem_keysOf_insertKey t k v p.1 hmem with h1 | h1
      · exact h.1 h1
      · exact hp h1

/-! Shared lemmas about the scheduler operations. -/

theorem removeTask_of_lookup_none {α : Type _} (s : Scheduler α) (key : String)
    (h : lookupKey s.tasks key = none) : s.RemoveTask key = s := by
  unfold Scheduler.RemoveTask
  rw [h]

theorem lookup_removeTask_self {α : Type _} (s : Scheduler α) (key : String) :
    lookupKey (s.RemoveTask key).tasks key = none := by
  unfold Scheduler.RemoveTask
  cases h : lookupKey s.tasks key with
  | none => exact h
  | some t => exact lookupKey_eraseKey_self s.tasks key

theorem lookup_removeTask_ne {α : Type _} (s : Scheduler α) (key k : String) (h : k ≠ key) :
    lookupKey (s.RemoveTask key).tasks k = lookupKey s.tasks k := by
  unfold Scheduler.RemoveTask
  cases hl : lookupKey s.tasks key with
  | none => rfl
  | some t => exact lookupKey_eraseKey_ne s.tasks key k h

theorem id_not_mem_removeTask {α : Type _} (s : Scheduler α) (key : String) (t : Task α)
    (h : lookupKey s.tasks key = some t) :
    t.id ∉ (s.RemoveTask key).cronEntries := by
  unfold Scheduler.RemoveTask
  rw [h]
  simp [List.mem_filter]

theorem uniqueKeys_removeTask {α : Type _} (s : Scheduler α) (key : String)
    (h : UniqueKeys s.tasks) : UniqueKeys (s.RemoveTask key).tasks := by
  unfold Scheduler.RemoveTask
  cases hl : lookupKey s.tasks key with
  | none => exact h
  | some t => exact uniqueKeys_eraseKey s.tasks key h

theorem uniqueKeys_addTask {α : Type _} (s : Scheduler α) (key schedule : String) (action : α)
    (h : UniqueKeys s.tasks) : UniqueKeys (s.AddTask key schedule action).1.tasks := by
  unfold Scheduler.AddTask
  by_cases hc : cronParse schedule
  · simp only [hc, if_true]
    exact uniqueKeys_insertKey _ key _ (uniqueKeys_removeTask s key h)
  · simp only [hc, if_false]
    exact uniqueKeys_removeTask s key h

theorem uniqueKeys_applyOp {α : Type _} (s : Scheduler α) (op : SchedOp α)
    (h : UniqueKeys s.tasks) : UniqueKeys (applyOp s op).tasks := by
  cases op with
  | add k e a => exact uniqueKeys_addTask s k e a h
  | update k e a => exact uniqueKeys_addTask s k e a h
  | remove k => exact uniqueKeys_removeTask s k h

theorem uniqueKeys_applyOps {α : Type _} (s : Scheduler α) (ops : List (SchedOp α))
    (h : UniqueKeys s.tasks) : UniqueKeys (applyOps s ops).tasks := by
  induction ops generalizing s with
  | nil => exact h
  | cons op t ih => exact ih (applyOp s op) (uniqueKeys_applyOp s op h)

/-! A characterization of the state left by `HandleDeleteRepository` on the
happy path, shared by the registry theorems. -/

theorem handleDeleteRepository_state {α : Type _} (st : AppState α) (path : String)
    (saveOk : Bool) (repo : Repository) (hpath : path ≠ "")
    (hlook : getRepository st.repositories path = some repo) :
    (HandleDeleteRepository st path saveOk).1 =
      { repositories := eraseKey st.repositories repo.path,
        scheduler := st.scheduler.RemoveTask repo.path } := by
  unfold HandleDeleteRepository
  rw [if_neg hpath, hlook]
  cases saveOk <;> rfl

/-! Shared lemmas about the log pipeline. -/

theorem id_ne_of_mem_group (l : List LogEntry) (m : List (String × Conversation))
    (hm : ∀ p ∈ m, p.2.id ≠ "") :
    ∀ p ∈ l.foldl addEntryToConversations m, p.2.id ≠ "" := by
  induction l generalizing m with
  | nil => exact hm
  | cons e t ih =>
    refine ih (addEntryToConversations m e) ?_
    intro p hp
    unfold addEntryToConversations at hp
    by_cases he : e.id = ""
    · rw [if_pos he] at hp
      exact hm p hp
    · rw [if_neg he] at hp
      cases hcv : lookupKey m e.id with
      | some conv =>
        rw [hcv] at hp
        rcases mem_insertKey m e.id _ p hp with h1 | h1
        · have hconv := hm (e.id, conv) (mem_of_lookupKey m e.id conv hcv)
          rw [h1]
          exact hconv
        · exact hm p h1
      | none =>
        rw [hcv] at hp
        rcases mem_insertKey m e.id _ p hp with h1 | h1
        · rw [h1]
          exact he
        · exact hm p h1

theorem sortedConversations_id_ne (entries : List LogEntry) (search levelFilter : String) :
    ∀ c ∈ sortedConversations entries search levelFilter, c.id ≠ "" := by
  intro c hc
  simp only [sortedConversations] at hc
  have hperm := List.perm_insertionSort
    (fun a b : Conversation => b.startTime ≤ a.startTime)
    ((((entries.map prepareEntry).filter
        (keepEntry levelFilter search)).foldl addEntryToConversations []).map
      (fun p => finishConversation p.2))
  have hc2 := hperm.mem_iff.mp hc
  rcases List.mem_map.mp hc2 with ⟨p, hp, rfl⟩
  have hid := id_ne_of_mem_group _ [] (by simp) p hp
  simpa [finishConversation] using hid

theorem handleLogs_subset (entries : List LogEntry) (search levelFilter limitStr : String) :
    ∀ c ∈ HandleLogs entries search levelFilter limitStr,
      c ∈ sortedConversations entries search levelFilter := by
  intro c hc
  simp only [HandleLogs] at hc
  split at hc
  · exact List.take_subset _ _ hc
  · exact hc

theorem goAtoi_empty : goAtoi "" = none := rfl

theorem parseLimit_default (limitStr : String) (h : limitStr = "" ∨ goAtoi limitStr = none) :
    parseLimit limitStr = 10 := by
  unfold parseLimit
  rcases h with rfl | hnone
  · simp
  · by_cases he : limitStr = ""
    · simp [he]
    · simp [he, hnone]

theorem parseLimit_some (limitStr : String) (n : Int) (h : goAtoi limitStr = some n) :
    parseLimit limitStr = n := by
  have hne : limitStr ≠ "" := by
    intro he
    rw [he, goAtoi_empty] at h
    exact Option.noConfusion h
  unfold parseLimit
  rw [if_pos hne, h]

/-! Claim theorems. -/

/-- C1 (counterexample): with a task registered under `"k"`, `AddTask` on
`"k"` with a malformed schedule string does fail, but the previously
registered entry under that same key is not left untouched — it has been
removed from the task map. -/
theorem addTask_invalid_cx :
    (sampleScheduler.AddTask "k" "not a schedule" 8).2 =
        some SchedulerError.invalidExpression ∧
    lookupKey sampleScheduler.tasks "k" = some sampleTask ∧
    lookupKey (sampleScheduler.AddTask "k" "not a schedule" 8).1.tasks "k" = none :=
  ⟨rfl, rfl, rfl⟩

/-- C1 (amended): if `AddTask(key, scheduleString, action)` is called with a
malformed schedule string, registration fails with `InvalidExpression` and
every entry under a *different* key is left untouched, but an entry
previously registered under that same key has already been removed (its
pending fire cancelled) before parsing, so it is lost rather than left
untouched. -/
theorem addTask_invalidExpression_state {α : Type _} (s : Scheduler α)
    (key schedule : String) (action : α) (h : cronParse schedule = false) :
    (s.AddTask key schedule action).2 = some SchedulerError.invalidExpression ∧
    lookupKey (s.AddTask key schedule action).1.tasks key = none ∧
    ∀ k, k ≠ key →
      lookupKey (s.AddTask key schedule action).1.tasks k = lookupKey s.tasks k := by
  have hif : s.AddTask key schedule action =
      (s.RemoveTask key, some SchedulerError.invalidExpression) := by
    unfold Scheduler.AddTask
    simp [h]
  rw [hif]
  exact ⟨rfl, lookup_removeTask_self s key, fun k hk => lookup_removeTask_ne s key k hk⟩

/-- C1 (witness): the amended theorem evaluated at a concrete scheduler,
malformed string and spectator key. -/
theorem addTask_invalidExpression_state_witness :
    (sampleScheduler.AddTask "k" "not a schedule" 8).2 =
        some SchedulerError.invalidExpression ∧
    lookupKey (sampleScheduler.AddTask "k" "not a schedule" 8).1.tasks "other" =
      lookupKey sampleScheduler.tasks "other" :=
  ⟨(addTask_invalidExpression_state sampleScheduler "k" "not a schedule" 8 rfl).1,
   (addTask_invalidExpression_state sampleScheduler "k" "not a schedule" 8 rfl).2.2
     "other" (by decide)⟩

/-- C2 (counterexample): a `delete(path)` that runs between a successful
`lookup(path)` and the re-insert step does not make the re-insert yield
NotFound — `updateRepo` unconditionally re-inserts, resurrecting the deleted
resource in the registry. -/
theorem mutateSafely_cx :
    getRepository
        (HandleDeleteRepository (AppState.mk [("/tmp/r", sampleRepo)] (NewScheduler Nat))
          "/tmp/r" true).1.repositories "/tmp/r" = none ∧
    getRepository
        (updateRepo false sampleRepo
          (HandleDeleteRepository (AppState.mk [("/tmp/r", sampleRepo)] (NewScheduler Nat))
            "/tmp/r" true).1.repositories) "/tmp/r" = some sampleRepo :=
  ⟨rfl, rfl⟩

/-- C2 (amended): in the mutate-safely pattern, when a `delete(path)` races
with a `lookup(path)` followed by a mutation on that same path, the re-insert
step (`updateRepo`) unconditionally re-publishes the resource, resurrecting
the deleted resource in the registry; NotFound arises only when the lookup
itself runs after the delete. -/
theorem updateRepo_resurrects {α : Type _} (st : AppState α) (path : String)
    (repo mutated : Repository) (hpath : path ≠ "")
    (hlook : getRepository st.repositories path = some repo) (hp : repo.path = path)
    (hm : mutated.path = path) :
    getRepository (HandleDeleteRepository st path true).1.repositories path = none ∧
    getRepository
        (updateRepo false mutated
          (HandleDeleteRepository st path true).1.repositories) path = some mutated := by
  rw [handleDeleteRepository_state st path true repo hpath hlook]
  constructor
  · rw [hp]
    exact lookupKey_eraseKey_self st.repositories path
  · show lookupKey (insertKey _ mutated.path mutated) path = some mutated
    rw [hm]
    exact lookupKey_insertKey_self _ path mutated

/-- C2 (witness): the amended theorem evaluated at a concrete state where the
resource is deleted while a mutation of it is in flight. -/
theorem updateRepo_resurrects_witness :
    getRepository (HandleDeleteRepository sampleAppState "/tmp/r" true).1.repositories
        "/tmp/r" = none ∧
    getRepository
        (updateRepo false sampleRepo
          (HandleDeleteRepository sampleAppState "/tmp/r" true).1.repositories)
        "/tmp/r" = some sampleRepo :=
  updateRepo_resurrects sampleAppState "/tmp/r" sampleRepo sampleRepo (by decide) rfl rfl rfl

/-- C3: every sequence of `AddTask`/`UpdateTask`/`RemoveTask` operations
preserves at most one task-map entry per key, and
`AddTask("r1", "* * * * *", A)` followed by `AddTask("r1", "0 0 * * *", B)`
succeeds and leaves exactly one entry for `"r1"`, carrying B's schedule and
action, with A's entry removed and A's pending cron fire cancelled. -/
theorem taskMap_unique_and_replace {α : Type _} (s : Scheduler α) (ops : List (SchedOp α))
    (h : UniqueKeys s.tasks) :
    UniqueKeys (applyOps s ops).tasks ∧
    ∀ A B : α,
      (((NewScheduler α).AddTask "r1" "* * * * *" A).1.AddTask "r1" "0 0 * * *" B).2 =
          none ∧
      (((NewScheduler α).AddTask "r1" "* * * * *" A).1.AddTask "r1" "0 0 * * *" B).1.tasks =
          [("r1", { id := 1, schedule := "0 0 * * *", action := B })] ∧
      (((NewScheduler α).AddTask "r1" "* * * * *" A).1.AddTask
          "r1" "0 0 * * *" B).1.cronEntries = [1] :=
  ⟨uniqueKeys_applyOps s ops h, fun _A _B => ⟨rfl, rfl, rfl⟩⟩

/-- C3 (witness): the invariant evaluated after a concrete operation
sequence starting from the empty scheduler. -/
theorem taskMap_unique_and_replace_witness :
    UniqueKeys (applyOps (NewScheduler Nat)
      [SchedOp.add "a" "* * * * *" 1, SchedOp.update "a" "0 0 * * *" 2,
       SchedOp.remove "b"]).tasks :=
  (taskMap_unique_and_replace (NewScheduler Nat)
    [SchedOp.add "a" "* * * * *" 1, SchedOp.update "a" "0 0 * * *" 2,
     SchedOp.remove "b"] (by decide)).1

/-- C4: `UpdateTask(key, scheduleString, action)` returns the same result and
leaves the scheduler in the same state as `AddTask(key, scheduleString,
action)`, for every scheduler state, key, schedule string and action. -/
theorem updateTask_eq_addTask {α : Type _} (s : Scheduler α) (key schedule : String)
    (action : α) :
    s.UpdateTask key schedule action = s.AddTask key schedule action := rfl

/-- C5: `RemoveTask` is total and idempotent: with an absent key it returns
leaving the whole scheduler state unchanged; with a present key it removes
exactly that entry (all other keys unaffected) and cancels the task's pending
cron fire; removing twice equals removing once. -/
theorem removeTask_idempotent_total {α : Type _} (s : Scheduler α) (key : String) :
    (lookupKey s.tasks key = none → s.RemoveTask key = s) ∧
    (∀ t, lookupKey s.tasks key = some t →
        lookupKey (s.RemoveTask key).tasks key = none ∧
        (∀ k, k ≠ key → lookupKey (s.RemoveTask key).tasks k = lookupKey s.tasks k) ∧
        t.id ∉ (s.RemoveTask key).cronEntries) ∧
    (s.RemoveTask key).RemoveTask key = s.RemoveTask key := by
  refine ⟨removeTask_of_lookup_none s key, fun t ht => ?_, ?_⟩
  · exact ⟨lookup_removeTask_self s key,
      fun k hk => lookup_removeTask_ne s key k hk,
      id_not_mem_removeTask s key t ht⟩
  · exact removeTask_of_lookup_none (s.RemoveTask key) key (lookup_removeTask_self s key)

/-- C5 (witness): the theorem evaluated on a concrete scheduler, at an absent
key and at a present key. -/
theorem removeTask_idempotent_total_witness :
    sampleScheduler.RemoveTask "absent" = sampleScheduler ∧
    lookupKey (sampleScheduler.RemoveTask "k").tasks "k" = none :=
  ⟨(removeTask_idempotent_total sampleScheduler "absent").1 rfl,
   ((removeTask_idempotent_total sampleScheduler "k").2.1 sampleTask rfl).1⟩

/-- C6: deleting an existing repository removes its path from the registry and
removes the scheduler task registered under the same path key, so a
subsequent lookup of the path yields NotFound and the task's pending cron
fire is cancelled — regardless of whether the configuration save succeeds. -/
theorem deleteRepository_removes_and_cancels {α : Type _} (st : AppState α) (path : String)
    (repo : Repository) (saveOk : Bool) (hpath : path ≠ "")
    (hlook : getRepository st.repositories path = some repo) (hp : repo.path = path) :
    getRepository (HandleDeleteRepository st path saveOk).1.repositories path = none ∧
    lookupKey (HandleDeleteRepository st path saveOk).1.scheduler.tasks path = none ∧
    ∀ t, lookupKey st.scheduler.tasks path = some t →
      t.id ∉ (HandleDeleteRepository st path saveOk).1.scheduler.cronEntries := by
  rw [handleDeleteRepository_state st path saveOk repo hpath hlook, hp]
  exact ⟨lookupKey_eraseKey_self st.repositories path,
    lookup_removeTask_self st.scheduler path,
    fun t ht => id_not_mem_removeTask st.scheduler path t ht⟩

/-- C6 (witness): the theorem evaluated on a concrete application state that
tracks a repository and a scheduled task under the same path key. -/
theorem deleteRepository_removes_and_cancels_witness :
    getRepository (HandleDeleteRepository sampleAppState "/tmp/r" true).1.repositories
        "/tmp/r" = none ∧
    lookupKey (HandleDeleteRepository sampleAppState "/tmp/r" true).1.scheduler.tasks
        "/tmp/r" = none ∧
    (3 : Nat) ∉ (HandleDeleteRepository sampleAppState "/tmp/r" true).1.scheduler.cronEntries :=
  ⟨(deleteRepository_removes_and_cancels sampleAppState "/tmp/r" sampleRepo true
      (by decide) rfl rfl).1,
   (deleteRepository_removes_and_cancels sampleAppState "/tmp/r" sampleRepo true
      (by decide) rfl rfl).2.1,
   (deleteRepository_removes_and_cancels sampleAppState "/tmp/r" sampleRepo true
      (by decide) rfl rfl).2.2 { id := 3, schedule := "* * * * *", action := 1 } rfl⟩

/-- C7: when a settings update mutates the in-memory settings but the
configuration save fails, `handleSettingsChange` reports the error while the
in-memory settings keep the new value, and `HandleUpdateSettings` answers 500
without rolling the mutation back. -/
theorem settings_persist_failure_keeps_mutation {σ : Type _} (current newSettings : σ) :
    handleSettingsChange current newSettings true true false =
        (newSettings, some SettingsError.saveConfig) ∧
    HandleUpdateSettings current (some newSettings) true true false = (newSettings, 500) :=
  ⟨rfl, rfl⟩

/-- C9: a decoded add-comment request whose resource type is neither
`"issue"` nor `"pr"`, against a path that resolves to a tracked repository, is
answered 201 Created with no remote-provider call made. -/
theorem addLocalComment_unknown_type (repositories : List (String × Repository))
    (req : CommentRequest) (repo : Repository) (issueOk prOk : Bool)
    (hrepo : getRepository repositories req.path = some repo)
    (hty1 : req.resourceType ≠ "issue") (hty2 : req.resourceType ≠ "pr") :
    HandleAddLocalComment repositories (some req) issueOk prOk = (201, []) := by
  simp only [HandleAddLocalComment, hrepo]
  rw [if_neg hty1, if_neg hty2]

/-- C9 (witness): the theorem evaluated on a concrete request whose resource
type is `"note"`. -/
theorem addLocalComment_unknown_type_witness :
    HandleAddLocalComment [("/tmp/r", sampleRepo)] (some sampleCommentRequest) true true =
      (201, []) :=
  addLocalComment_unknown_type [("/tmp/r", sampleRepo)] sampleCommentRequest sampleRepo
    true true rfl (by decide) (by decide)

/-- C8: the schedule expression `*/61 * * * *` is malformed (61 exceeds the
minute domain 0–59): `cronParse` rejects it, and `AddTask` with it returns
`InvalidExpression` and adds no entry to the task map, for every scheduler
state, key and action. -/
theorem addTask_star61_rejected {α : Type _} (s : Scheduler α) (key : String) (action : α) :
    cronParse "*/61 * * * *" = false ∧
    (s.AddTask key "*/61 * * * *" action).2 = some SchedulerError.invalidExpression ∧
    (s.AddTask key "*/61 * * * *" action).1.tasks = eraseKey s.tasks key := by
  refine ⟨rfl, rfl, ?_⟩
  show (s.RemoveTask key).tasks = eraseKey s.tasks key
  unfold Scheduler.RemoveTask
  cases h : lookupKey s.tasks key with
  | none => exact (eraseKey_of_lookup_none s.tasks key h).symm
  | some t => rfl

/-- C10: the `HandleLogs` response contains only conversations with a
non-empty id; an absent or non-numeric `limit` query parameter yields at most
10 conversations; a parsed limit of zero or less disables truncation, so the
full sorted conversation list is returned. -/
theorem handleLogs_spec (entries : List LogEntry) (search levelFilter limitStr : String) :
    (∀ c ∈ HandleLogs entries search levelFilter limitStr, c.id ≠ "") ∧
    ((limitStr = "" ∨ goAtoi limitStr = none) →
      (HandleLogs entries search levelFilter limitStr).length ≤ 10) ∧
    (∀ n : Int, goAtoi limitStr = some n → n ≤ 0 →
      HandleLogs entries search levelFilter limitStr =
        sortedConversations entries search levelFilter) := by
  refine ⟨?_, ?_, ?_⟩
  · intro c hc
    exact sortedConversations_id_ne entries search levelFilter c
      (handleLogs_subset entries search levelFilter limitStr c hc)
  · intro h
    simp only [HandleLogs, parseLimit_default limitStr h]
    split
    case isTrue hcond =>
      rw [List.length_take]
      have : (10 : Int).toNat = 10 := rfl
      rw [this]
      exact min_le_left _ _
    case isFalse hcond =>
      have hlen : ¬((10 : Int) < (sortedConversations entries search levelFilter).length) :=
        fun hl => hcond ⟨by norm_num, hl⟩
      have := Int.not_lt.mp hlen
      exact_mod_cast this
  · intro n hsome hn
    simp only [HandleLogs, parseLimit_some limitStr n hsome]
    rw [if_neg]
    intro hcond
    exact absurd hn (Int.not_le.mpr hcond.1)

/-- C10 (witness): the theorem evaluated on a concrete entry list with a
non-numeric limit and with a negative limit. -/
theorem handleLogs_spec_witness :
    (HandleLogs [sampleEntry] "" "" "x").length ≤ 10 ∧
    HandleLogs [sampleEntry] "" "" "-2" = sortedConversations [sampleEntry] "" "" :=
  ⟨(handleLogs_spec [sampleEntry] "" "" "x").2.1 (Or.inr rfl),
   (handleLogs_spec [sampleEntry] "" "" "-2").2.2 (-2) rfl (by decide)⟩

end Mule
